import Mathlib

/-!
Verification of the FINAgent trading-pipeline orchestration core.

The definitions below are a shallow embedding of the repository code:

* `setup_graph` follows `Langgraph/GraphState.py` (`GraphSetup.setup_graph`)
  line by line.  LangGraph's `StateGraph` is modelled by the record
  `StateGraph` below: `add_node` rejects duplicate node names,
  `add_conditional_edges` rejects a duplicate (source, branch-name) pair,
  and `compile` validates that every edge endpoint and branch target is a
  known node — the observable behaviour of the library calls made by
  `setup_graph`.  Node handlers are irrelevant to the topology and are not
  modelled; a node is its string name.
* `get_memories`, `semantic_search_async` and `get_relevant_memories`
  follow `memory/enhanced_memory.py`; the backing stores (ChromaDB, Neon)
  are abstracted as lists of rows that carry the distance the store
  reports for the current query.
* `get_groq_llm` follows `LLMs/groq/groq.py`.
-/

/-- LangGraph's reserved entry node name (`START`). -/
def startNode : String := "__start__"

/-- LangGraph's reserved terminal node name (`END`). -/
def endNode : String := "__end__"

/-- Python `str.capitalize`: first character upper-cased, the rest lower-cased. -/
def pyCapitalize (s : String) : String :=
  match s.data with
  | [] => ""
  | c :: cs => String.mk (c.toUpper :: cs.map Char.toLower)

/-- Node name `f"{analyst_type.capitalize()} Analyst"`. -/
def analystName (t : String) : String := pyCapitalize t ++ " Analyst"

/-- Node name `f"Msg Clear {analyst_type.capitalize()}"`. -/
def msgClearName (t : String) : String := "Msg Clear " ++ pyCapitalize t

/-- Node name `f"tools_{analyst_type}"`. -/
def toolsName (t : String) : String := "tools_" ++ t

/-- Branch name of the per-stage predicate, the `__name__` of
`conditional_logic.should_continue_{analyst_type}`. -/
def methodName (t : String) : String := "should_continue_" ++ t

/-- Modelled from the spec: `agents/registry.json` is not under src.  The
keys of its `analysts` map are the recognized stage identifiers
{market, social, news, fundamentals} per spec §3 and the
`setup_graph` docstring. -/
def analystsMapKeys : List String := ["market", "social", "news", "fundamentals"]

/-- `key in analysts_map` in the node-creation loop of `setup_graph`. -/
def recognizedAnalyst (t : String) : Bool := analystsMapKeys.contains t

/-- Modelled from the spec: `Langgraph/ConditionalLogic.py` is not under
src.  Per spec §4.2 and the §9 note on per-stage predicate dispatch,
`ConditionalLogic` has a `should_continue_<stage>` method exactly for the
recognized stage identifiers, so `getattr` succeeds exactly on those. -/
def hasMethod (t : String) : Bool := analystsMapKeys.contains t

/-- Insert a key into a python-dict key list: keys keep their first
insertion position, a repeated insertion changes nothing. -/
def insertKey (ks : List String) (k : String) : List String :=
  if k ∈ ks then ks else ks ++ [k]

/-- Key order of a python dict populated from `l`: first occurrence of
each key, in order (models the keys of the `analyst_nodes` dict). -/
def pyDictKeys (l : List String) : List String := l.foldl insertKey []

/-- The mutable `StateGraph` being built: node names, static edges and
conditional branches `(source, branch name, target list)`.  A target list
models the list form of `add_conditional_edges`, whose path map sends
each listed name to itself (the dict forms used in `setup_graph` are also
identity maps). -/
structure StateGraph where
  nodes : List String
  edges : List (String × String)
  branches : List (String × String × List String)
deriving DecidableEq, Repr

def StateGraph.empty : StateGraph := ⟨[], [], []⟩

/-- The distinct failures observable while `setup_graph` builds the
graph.  `noAnalystsSelected` is the `ValueError` raised by the explicit
validation at the top of `setup_graph`; the others arise from the
dynamic predicate lookup and from the graph library. -/
inductive GraphError where
  | noAnalystsSelected : GraphError
  | nodeAlreadyPresent : String → GraphError
  | branchAlreadyExists : String → String → GraphError
  | attributeError : String → GraphError
  | unknownNode : String → GraphError
deriving DecidableEq, Repr

/-- `StateGraph.add_node`: rejects a node name already present. -/
def addNode (n : String) (g : StateGraph) : Except GraphError StateGraph :=
  if n ∈ g.nodes then .error (.nodeAlreadyPresent n)
  else .ok { g with nodes := g.nodes ++ [n] }

/-- `StateGraph.add_edge`: appends a static edge. -/
def addEdge (a b : String) (g : StateGraph) : StateGraph :=
  { g with edges := g.edges ++ [(a, b)] }

/-- The (source, branch-name) keys of the registered branches. -/
def branchKeys (g : StateGraph) : List (String × String) :=
  g.branches.map (fun b => (b.1, b.2.1))

/-- `StateGraph.add_conditional_edges`: rejects a branch whose
(source, name) pair is already registered. -/
def addCondEdges (src name : String) (targets : List String) (g : StateGraph) :
    Except GraphError StateGraph :=
  if (src, name) ∈ branchKeys g then .error (.branchAlreadyExists src name)
  else .ok { g with branches := g.branches ++ [(src, name, targets)] }

/-- An edge source is valid if it is a node or the reserved entry. -/
def knownSource (g : StateGraph) (n : String) : Bool :=
  n == startNode || g.nodes.contains n

/-- An edge target is valid if it is a node or the reserved terminal. -/
def knownTarget (g : StateGraph) (n : String) : Bool :=
  n == endNode || g.nodes.contains n

/-- `StateGraph.compile`: validates every static edge endpoint and every
branch source/target against the node set, then freezes the graph. -/
def compileGraph (g : StateGraph) : Except GraphError StateGraph :=
  match g.edges.find? (fun e => !(knownSource g e.1 && knownTarget g e.2)) with
  | some e => .error (.unknownNode (if knownSource g e.1 then e.2 else e.1))
  | none =>
    match g.branches.find?
        (fun b => !(g.nodes.contains b.1 && b.2.2.all (knownTarget g))) with
    | some b => .error (.unknownNode b.1)
    | none => .ok g

/-- The eight fixed nodes added after the per-stage nodes, in source
order. -/
def fixedNodes : List String :=
  ["Bull Researcher", "Bear Researcher", "Research Manager", "Trader",
   "Risky Analyst", "Neutral Analyst", "Safe Analyst", "Risk Judge"]

/-- The analyst/message-clear/tool node triple added for one recognized
stage key, in source order. -/
def stageTriple (k : String) : List String :=
  [analystName k, msgClearName k, toolsName k]

/-- The node-creation loop over `analyst_nodes.items()`: for each
recognized key (dict order) add the analyst, message-clear and tool
nodes. -/
def addAnalystNodes (keys : List String) (g : StateGraph) :
    Except GraphError StateGraph :=
  keys.foldlM (fun g k => do
    let g ← addNode (analystName k) g
    let g ← addNode (msgClearName k) g
    addNode (toolsName k) g) g

/-- Adds the eight fixed nodes. -/
def addFixedNodes (g : StateGraph) : Except GraphError StateGraph :=
  fixedNodes.foldlM (fun g n => addNode n g) g

/-- The indexed edge loop `for i, analyst_type in enumerate(selected)`:
look up the per-stage predicate (an `AttributeError` if absent), register
the analyst's conditional edge to its tool and message-clear nodes, the
tool node's edge back to its analyst, and the clear node's edge to the
next stage's analyst (`selected[i+1]`) or to "Bull Researcher" at the
last stage. -/
def stageEdgesAux : List String → StateGraph → Except GraphError StateGraph
  | [], g => .ok g
  | t :: rest, g =>
    if hasMethod t then do
      let g ← addCondEdges (analystName t) (methodName t)
        [toolsName t, msgClearName t] g
      let g := addEdge (toolsName t) (analystName t) g
      let g := match rest with
        | next :: _ => addEdge (msgClearName t) (analystName next) g
        | [] => addEdge (msgClearName t) "Bull Researcher" g
      stageEdgesAux rest g
    else .error (.attributeError (methodName t))

/-- The fixed debate/decision/risk edges added after the per-stage
loop, in source order. -/
def debateRiskEdges (g : StateGraph) : Except GraphError StateGraph := do
  let g ← addCondEdges "Bull Researcher" "should_continue_debate"
    ["Bear Researcher", "Research Manager"] g
  let g ← addCondEdges "Bear Researcher" "should_continue_debate"
    ["Bull Researcher", "Research Manager"] g
  let g := addEdge "Research Manager" "Trader" g
  let g := addEdge "Trader" "Risky Analyst" g
  let g ← addCondEdges "Risky Analyst" "should_continue_risk_analysis"
    ["Safe Analyst", "Risk Judge"] g
  let g ← addCondEdges "Safe Analyst" "should_continue_risk_analysis"
    ["Neutral Analyst", "Risk Judge"] g
  let g ← addCondEdges "Neutral Analyst" "should_continue_risk_analysis"
    ["Risky Analyst", "Risk Judge"] g
  pure (addEdge "Risk Judge" endNode g)

/-- The node-creation step of `setup_graph`: the per-stage triples for
the recognized keys (unrecognized identifiers are skipped by the
`key in analysts_map` guard; the dict keeps one entry per key, in first
occurrence order), then the eight fixed nodes. -/
def nodesPhase (selected : List String) : Except GraphError StateGraph := do
  let keys := pyDictKeys (selected.filter recognizedAnalyst)
  let g ← addAnalystNodes keys StateGraph.empty
  addFixedNodes g

/-- `GraphSetup.setup_graph`: the explicit emptiness check, node
creation, the entry edge to the first selected stage's analyst, the
per-stage edge loop, the fixed edges, and compilation. -/
def setup_graph (selected : List String) : Except GraphError StateGraph :=
  if selected.length == 0 then .error .noAnalystsSelected
  else do
    let g ← nodesPhase selected
    let g := addEdge startNode (analystName (selected.headD "")) g
    let g ← stageEdgesAux selected g
    let g ← debateRiskEdges g
    compileGraph g

/-- Targets of the static edges leaving node `n`. -/
def edgesFrom (g : StateGraph) (n : String) : List String :=
  (g.edges.filter (fun e => e.1 == n)).map (·.2)

/-- Target lists of the conditional branches leaving node `n`. -/
def branchesFrom (g : StateGraph) (n : String) : List (List String) :=
  (g.branches.filter (fun b => b.1 == n)).map (fun b => b.2.2)

/-- All possible successors of node `n`: static edge targets plus every
conditional branch target. -/
def succOf (g : StateGraph) (n : String) : List String :=
  edgesFrom g n ++ (branchesFrom g n).flatten

/-- Modelled from the spec: the tool-continue predicate of
`ConditionalLogic` (`should_continue_<stage>`, file absent from src).
Per §4.2 it routes to the stage's tool node when the last produced
message declares pending tool calls, else to the stage's message-clear
node. -/
def shouldContinueAnalyst (lastMessageHasToolCalls : Bool) (t : String) : String :=
  if lastMessageHasToolCalls then toolsName t else msgClearName t

/-- The debate fields of the shared state read by the debate predicate:
the shared bull/bear turn counter and whose turn the current response
belongs to. -/
structure DebateState where
  count : Nat
  lastWasBull : Bool
deriving DecidableEq, Repr

/-- Modelled from the spec: `ConditionalLogic.should_continue_debate`
(file absent from src).  Per §4.2: once `count >= 2*maxDebateRounds`
route to the decision manager regardless of whose turn it is; below the
bound alternate, routing to bear after a bull turn and to bull after a
bear turn. -/
def shouldContinueDebate (maxDebateRounds : Nat) (s : DebateState) : String :=
  if 2 * maxDebateRounds ≤ s.count then "Research Manager"
  else if s.lastWasBull then "Bear Researcher"
  else "Bull Researcher"

/-- Modelled from the spec: a bull turn appends to the bull history and
increments the shared counter by exactly one (§4.4). -/
def bullTurn (s : DebateState) : DebateState :=
  { count := s.count + 1, lastWasBull := true }

/-- Modelled from the spec: a bear turn increments the shared counter by
exactly one (§4.4). -/
def bearTurn (s : DebateState) : DebateState :=
  { count := s.count + 1, lastWasBull := false }

/-- The sequence of debate-phase nodes visited by the engine when it
starts at `node`: a bull or bear node takes its turn and follows the
debate predicate; any other node (the decision manager) ends the phase.
`fuel` bounds the walk. -/
def debateTrace (maxDebateRounds : Nat) :
    Nat → String → DebateState → List String
  | 0, node, _ => [node]
  | fuel + 1, node, s =>
    if node == "Bull Researcher" then
      let s2 := bullTurn s
      node :: debateTrace maxDebateRounds fuel (shouldContinueDebate maxDebateRounds s2) s2
    else if node == "Bear Researcher" then
      let s2 := bearTurn s
      node :: debateTrace maxDebateRounds fuel (shouldContinueDebate maxDebateRounds s2) s2
    else [node]

/-- One row of the ChromaDB `situation_collection` as seen by a query:
the stored situation document, the recommendation kept in its metadata,
and the distance the store reports for the current query. -/
structure ChromaEntry where
  doc : String
  recommendation : String
  dist : ℚ
deriving DecidableEq, Repr

/-- Distance order on collection rows (the store returns nearest
first). -/
def distLE (a b : ChromaEntry) : Prop := a.dist ≤ b.dist

instance : DecidableRel distLE := fun a b => inferInstanceAs (Decidable (a.dist ≤ b.dist))

instance : IsTotal ChromaEntry distLE := ⟨fun a b => le_total a.dist b.dist⟩

instance : IsTrans ChromaEntry distLE := ⟨fun _ _ _ h1 h2 => le_trans h1 h2⟩

/-- `situation_collection.query(..., n_results=n)`: the store returns at
most `n` rows, nearest (smallest distance) first, with documents,
metadatas and distances. -/
def chromaQuery (coll : List ChromaEntry) (n : Nat) : List ChromaEntry :=
  (List.insertionSort distLE coll).take n

/-- One record of the list built by
`EnhancedFinancialMemory.get_memories`. -/
structure MemRecord where
  matched_situation : String
  recommendation : String
  similarity_score : ℚ
deriving DecidableEq, Repr

/-- `EnhancedFinancialMemory.get_memories`: query the collection and
build `{matched_situation, recommendation, similarity_score = 1 - distance}`
records from its rows. -/
def get_memories (coll : List ChromaEntry) (n_matches : Nat) : List MemRecord :=
  (chromaQuery coll n_matches).map
    (fun e => ⟨e.doc, e.recommendation, 1 - e.dist⟩)

/-- One row of the Neon `financial_memories` table as seen by a query:
the stored columns plus the cosine distance `embedding <=> query`
reported for the current query. -/
structure NeonRow where
  id : Nat
  memory_type : String
  ticker : Option String
  content : String
  metadata : List (String × String)
  dist : ℚ
deriving DecidableEq, Repr

/-- One row of the result set of
`NeonVectorDB.semantic_search_memories`: the selected columns and
`1 - (embedding <=> query) as similarity`. -/
structure NeonResult where
  id : Nat
  memory_type : String
  ticker : Option String
  content : String
  metadata : List (String × String)
  similarity : ℚ
deriving DecidableEq, Repr

/-- Distance order on Neon rows (`ORDER BY embedding <=> $1`). -/
def neonDistLE (a b : NeonRow) : Prop := a.dist ≤ b.dist

instance : DecidableRel neonDistLE := fun a b => inferInstanceAs (Decidable (a.dist ≤ b.dist))

instance : IsTotal NeonRow neonDistLE := ⟨fun a b => le_total a.dist b.dist⟩

instance : IsTrans NeonRow neonDistLE := ⟨fun _ _ _ h1 h2 => le_trans h1 h2⟩

/-- `NeonVectorDB.semantic_search_memories`: filter by the optional
`memory_type` and `ticker` equality clauses, order by distance, limit,
and report `similarity = 1 - distance` per row. -/
def semantic_search_memories (rows : List NeonRow) (memoryType : Option String)
    (ticker : Option String) (limit : Nat) : List NeonResult :=
  let filtered := rows.filter (fun r =>
    (match memoryType with | some mt => r.memory_type == mt | none => true) &&
    (match ticker with | some tk => r.ticker == some tk | none => true))
  ((List.insertionSort neonDistLE filtered).take limit).map
    (fun r => ⟨r.id, r.memory_type, r.ticker, r.content, r.metadata, 1 - r.dist⟩)

/-- A record returned by `get_relevant_memories`: either a ChromaDB
record `{matched_situation, recommendation, similarity_score}` or a Neon
row `{id, memory_type, ticker, content, metadata, similarity}` — the two
dict shapes the python code can return. -/
inductive MemoryResult where
  | chroma : MemRecord → MemoryResult
  | neon : NeonResult → MemoryResult
deriving DecidableEq, Repr

/-- Whether a returned record has the ChromaDB shape
`{matched_situation, recommendation, similarity_score}`. -/
def chromaShaped : MemoryResult → Bool
  | .chroma _ => true
  | .neon _ => false

/-- The state of one `EnhancedFinancialMemory` instance: its collection
name, the vector-db flag, the connected Neon store (if any) and its
ChromaDB collection. -/
structure MemoryState where
  name : String
  use_vector_db : Bool
  vector_db : Option (List NeonRow)
  collection : List ChromaEntry

/-- `EnhancedFinancialMemory.semantic_search_async` (success path): with
the vector store connected, search it filtered to this collection's
`memory_type`; otherwise fall back to the ChromaDB search. -/
def semantic_search_async (m : MemoryState) (ticker : Option String)
    (limit : Nat) : List MemoryResult :=
  if m.use_vector_db && m.vector_db.isSome then
    (semantic_search_memories (m.vector_db.getD []) (some m.name) ticker limit).map .neon
  else (get_memories m.collection limit).map .chroma

/-- `EnhancedFinancialMemory.get_relevant_memories` (success path): with
the vector store connected, delegate to the semantic search; otherwise
fall back to the ChromaDB search. -/
def get_relevant_memories (m : MemoryState) (ticker : Option String)
    (limit : Nat) : List MemoryResult :=
  if m.use_vector_db && m.vector_db.isSome then semantic_search_async m ticker limit
  else (get_memories m.collection limit).map .chroma

/-- The failures of `get_groq_llm`: the guard `ImportError` when
`langchain_groq` is missing, and the `ValueError` for a missing API
key. -/
inductive GroqError where
  | importError : GroqError
  | valueError : GroqError
deriving DecidableEq, Repr

/-- A constructed `ChatGroq` client (the arguments the call would
forward). -/
structure GroqClient where
  model_name : String
  api_key : String
deriving DecidableEq, Repr

/-- `get_groq_llm` from `LLMs/groq/groq.py`: fails when `langchain_groq`
is unavailable; otherwise sets `resolved_api_key = ""` and raises
`ValueError` when the resolved key is falsy, else builds the client.
The `api_key` argument and the `GROQ_API_KEY` environment value are
parameters the body never consults when resolving the key. -/
def get_groq_llm (chatGroqAvailable : Bool) (model_name : String)
    (api_key : Option String) (envGroqApiKey : Option String) :
    Except GroqError GroqClient :=
  if !chatGroqAvailable then .error .importError
  else
    let resolved_api_key := ""
    if resolved_api_key == "" then .error .valueError
    else .ok ⟨model_name, resolved_api_key⟩

/-- All lists of recognized stage identifiers of length at most `n`
(repetitions included); every bounded selection over the recognized set
occurs in this enumeration. -/
def stageListsUpTo : Nat → List (List String)
  | 0 => [[]]
  | n + 1 => [] :: analystsMapKeys.flatMap (fun a => (stageListsUpTo n).map (a :: ·))

/-- The message-clear chain over the selected order: each clear node
routes to the next stage's analyst, the last to "Bull Researcher". -/
def clearChainOk (g : StateGraph) : List String → Bool
  | [] => true
  | [t] => edgesFrom g (msgClearName t) == ["Bull Researcher"]
  | t :: u :: rest =>
    (edgesFrom g (msgClearName t) == [analystName u]) && clearChainOk g (u :: rest)

/-- The node inventory of a compiled topology for a valid selection: one
stage triple per selected identifier, then the eight fixed nodes. -/
def expectedNodes (sel : List String) : List String :=
  sel.flatMap stageTriple ++ fixedNodes

/-- All topology facts the claims need, checked on the compiled result
of one selection. -/
def checkTopology (sel : List String) : Bool :=
  match setup_graph sel with
  | .error _ => false
  | .ok g =>
    (edgesFrom g startNode == [analystName (sel.headD "")]) &&
    (succOf g "Risky Analyst" == ["Safe Analyst", "Risk Judge"]) &&
    (succOf g "Safe Analyst" == ["Neutral Analyst", "Risk Judge"]) &&
    (succOf g "Neutral Analyst" == ["Risky Analyst", "Risk Judge"]) &&
    (sel.all (fun t =>
      (branchesFrom g (analystName t) == [[toolsName t, msgClearName t]]) &&
      (edgesFrom g (analystName t) == []) &&
      (edgesFrom g (toolsName t) == [analystName t]) &&
      (branchesFrom g (toolsName t) == []) &&
      (branchesFrom g (msgClearName t) == []))) &&
    clearChainOk g sel &&
    (succOf g "Research Manager" == ["Trader"]) &&
    (succOf g "Trader" == ["Risky Analyst"]) &&
    (succOf g "Risk Judge" == [endNode]) &&
    (g.nodes == expectedNodes sel) &&
    (g.nodes.length == 8 + 3 * sel.length)

/-- The compiled graph for the selection `["market"]`, used to
instantiate the universally quantified theorems below. -/
def gMarket : StateGraph :=
  match setup_graph ["market"] with
  | .ok g => g
  | .error _ => StateGraph.empty

/-- The compiled graph for the selection `["market", "news"]`. -/
def gMarketNews : StateGraph :=
  match setup_graph ["market", "news"] with
  | .ok g => g
  | .error _ => StateGraph.empty

/-- A concrete memory instance whose Neon vector store is connected and
holds one row (distance 0 for the current query). -/
def memVec : MemoryState :=
  { name := "bull_memory"
    use_vector_db := true
    vector_db := some [⟨7, "bull_memory", none,
      "Situation: rally\nRecommendation: BUY", [], 0⟩]
    collection := [⟨"rally", "BUY", 0⟩] }

/-- A concrete memory instance without the vector store. -/
def memChroma : MemoryState :=
  { name := "bear_memory"
    use_vector_db := false
    vector_db := none
    collection := [⟨"crash", "SELL", 0⟩, ⟨"dip", "HOLD", 1/2⟩] }

/-- The (source, branch-name) pair the stage-edge loop registers for one
selected identifier. -/
def branchKey (t : String) : String × String := (analystName t, methodName t)

/-- Runs the node-creation phase on a key list and checks the produced
node inventory: the stage triples in key order followed by the eight
fixed nodes. -/
def checkNodesPhase (ks : List String) : Bool :=
  match addAnalystNodes ks StateGraph.empty >>= addFixedNodes with
  | .ok g => g.nodes == ks.flatMap stageTriple ++ fixedNodes
  | .error _ => false

/-- The compiled graph for the default selection
`["market", "social", "news", "fundamentals"]`. -/
def gDefault : StateGraph :=
  match setup_graph ["market", "social", "news", "fundamentals"] with
  | .ok g => g
  | .error _ => StateGraph.empty

/-- The node-phase result for the selection `["market", "bogus"]`. -/
def gNodesMB : StateGraph :=
  match nodesPhase ["market", "bogus"] with
  | .ok g => g
  | .error _ => StateGraph.empty

set_option maxRecDepth 10000 in
theorem masterTopologyCheck :
    ∀ sel ∈ stageListsUpTo 4, sel ≠ [] → sel.Nodup → checkTopology sel = true := by
  decide

set_option maxRecDepth 10000 in
theorem masterNodesCheck :
    ∀ ks ∈ stageListsUpTo 4, ks.Nodup → checkNodesPhase ks = true := by
  decide

theorem mem_stageListsUpTo :
    ∀ (n : Nat) (sel : List String), (∀ x ∈ sel, x ∈ analystsMapKeys) →
      sel.length ≤ n → sel ∈ stageListsUpTo n := by
  intro n
  induction n with
  | zero =>
    intro sel _ hlen
    have hnil : sel = [] := List.eq_nil_of_length_eq_zero (Nat.le_zero.mp hlen)
    subst hnil
    simp [stageListsUpTo]
  | succ n ih =>
    intro sel hmem hlen
    cases sel with
    | nil => simp [stageListsUpTo]
    | cons a l =>
      have ha : a ∈ analystsMapKeys := hmem a (by simp)
      have hl : l ∈ stageListsUpTo n :=
        ih l (fun x hx => hmem x (by simp [hx])) (by simpa using hlen)
      simp only [stageListsUpTo, List.mem_cons, List.mem_flatMap, List.mem_map]
      exact Or.inr ⟨a, ha, l, hl, rfl⟩

theorem valid_sel_length_le {sel : List String} (hnd : sel.Nodup)
    (hmem : ∀ x ∈ sel, x ∈ analystsMapKeys) : sel.length ≤ 4 := by
  have hsub : sel ⊆ analystsMapKeys := fun x hx => hmem x hx
  have := (hnd.subperm hsub).length_le
  simpa [analystsMapKeys] using this

theorem checkTopology_of_valid {sel : List String} (hne : sel ≠ [])
    (hnd : sel.Nodup) (hmem : ∀ x ∈ sel, x ∈ analystsMapKeys) :
    checkTopology sel = true :=
  masterTopologyCheck sel
    (mem_stageListsUpTo 4 sel hmem (valid_sel_length_le hnd hmem)) hne hnd

theorem exceptBindOk {ε α β : Type} {x : Except ε α} {f : α → Except ε β} {b : β}
    (h : (x >>= f) = .ok b) : ∃ a, x = .ok a ∧ f a = .ok b := by
  cases x with
  | ok a => exact ⟨a, rfl, h⟩
  | error e => simp [Bind.bind, Except.bind] at h

theorem hasMethod_mem {t : String} (h : hasMethod t = true) :
    t ∈ analystsMapKeys := by
  simpa [hasMethod] using h

theorem stageEdgesAux_ok_hasMethod :
    ∀ (sel : List String) (g g2 : StateGraph), stageEdgesAux sel g = .ok g2 →
      ∀ t ∈ sel, hasMethod t = true := by
  intro sel
  induction sel with
  | nil => intro g g2 _ t ht; simp at ht
  | cons a l ih =>
    intro g g2 h t ht
    by_cases hm : hasMethod a = true
    · rw [List.mem_cons] at ht
      rcases ht with rfl | htl
      · exact hm
      · rw [stageEdgesAux, if_pos hm] at h
        obtain ⟨g1, _, hrest⟩ := exceptBindOk h
        exact ih _ _ hrest t htl
    · rw [stageEdgesAux, if_neg hm] at h
      simp at h

theorem addCondEdges_ok_elim {src name : String} {targets : List String}
    {g g2 : StateGraph} (h : addCondEdges src name targets g = .ok g2) :
    (src, name) ∉ branchKeys g ∧
      g2.branches = g.branches ++ [(src, name, targets)] := by
  by_cases hmem : (src, name) ∈ branchKeys g
  · rw [addCondEdges, if_pos hmem] at h
    simp at h
  · rw [addCondEdges, if_neg hmem] at h
    refine ⟨hmem, ?_⟩
    injection h with h2
    rw [← h2]

theorem stageEdgesAux_ok_branchNodup :
    ∀ (sel : List String) (g g2 : StateGraph), stageEdgesAux sel g = .ok g2 →
      (sel.map branchKey).Nodup ∧ ∀ t ∈ sel, branchKey t ∉ branchKeys g := by
  intro sel
  induction sel with
  | nil => intro g g2 _; exact ⟨List.nodup_nil, by simp⟩
  | cons a l ih =>
    intro g g2 h
    by_cases hm : hasMethod a = true
    · rw [stageEdgesAux, if_pos hm] at h
      obtain ⟨g1, hg1, hrest⟩ := exceptBindOk h
      obtain ⟨hnot, hbr⟩ := addCondEdges_ok_elim hg1
      have hkeys1 : branchKeys g1 = branchKeys g ++ [branchKey a] := by
        simp [branchKeys, hbr, branchKey]
      have hrest2 : ∃ gX : StateGraph,
          branchKeys gX = branchKeys g1 ∧ stageEdgesAux l gX = .ok g2 := by
        cases l with
        | nil =>
          exact ⟨addEdge (msgClearName a) "Bull Researcher"
            (addEdge (toolsName a) (analystName a) g1), rfl, hrest⟩
        | cons b lb =>
          exact ⟨addEdge (msgClearName a) (analystName b)
            (addEdge (toolsName a) (analystName a) g1), rfl, hrest⟩
      obtain ⟨gX, hkX, hX⟩ := hrest2
      obtain ⟨hndl, hnotl⟩ := ih gX g2 hX
      have hsplit : ∀ t ∈ l, branchKey t ≠ branchKey a ∧ branchKey t ∉ branchKeys g := by
        intro t ht
        have hn := hnotl t ht
        rw [hkX, hkeys1] at hn
        simp only [List.mem_append, List.mem_singleton, not_or] at hn
        exact ⟨hn.2, hn.1⟩
      constructor
      · rw [List.map_cons]
        refine List.nodup_cons.mpr ⟨?_, hndl⟩
        intro hmem2
        obtain ⟨t, ht, heq⟩ := List.mem_map.mp hmem2
        exact (hsplit t ht).1 heq
      · intro t ht
        rcases List.mem_cons.mp ht with rfl | htl
        · exact hnot
        · exact (hsplit t htl).2
    · rw [stageEdgesAux, if_neg hm] at h
      simp at h

theorem sel_nodup_of_stageEdges_ok {sel : List String} {g g2 : StateGraph}
    (h : stageEdgesAux sel g = .ok g2) : sel.Nodup :=
  List.Nodup.of_map branchKey (stageEdgesAux_ok_branchNodup sel g g2 h).1

theorem setup_graph_ok_parts {sel : List String} {g : StateGraph}
    (h : setup_graph sel = .ok g) :
    sel ≠ [] ∧ ∃ g0 g1, nodesPhase sel = .ok g0 ∧
      stageEdgesAux sel (addEdge startNode (analystName (sel.headD "")) g0) = .ok g1 := by
  cases sel with
  | nil => simp [setup_graph] at h
  | cons a l =>
    rw [setup_graph] at h
    simp only [List.length_cons, beq_iff_eq, Nat.succ_ne_zero, if_false] at h
    obtain ⟨g0, hg0, h⟩ := exceptBindOk h
    obtain ⟨g1, hg1, _⟩ := exceptBindOk h
    exact ⟨List.cons_ne_nil a l, g0, g1, hg0, hg1⟩

theorem setup_graph_ok_valid {sel : List String} {g : StateGraph}
    (h : setup_graph sel = .ok g) :
    sel ≠ [] ∧ sel.Nodup ∧ ∀ t ∈ sel, t ∈ analystsMapKeys := by
  obtain ⟨hne, g0, g1, _, hg1⟩ := setup_graph_ok_parts h
  exact ⟨hne, sel_nodup_of_stageEdges_ok hg1,
    fun t ht => hasMethod_mem (stageEdgesAux_ok_hasMethod _ _ _ hg1 t ht)⟩

theorem checkTopology_of_ok {sel : List String} {g : StateGraph}
    (h : setup_graph sel = .ok g) : checkTopology sel = true := by
  obtain ⟨hne, hnd, hmem⟩ := setup_graph_ok_valid h
  exact checkTopology_of_valid hne hnd hmem

theorem topology_facts {sel : List String} {g : StateGraph}
    (h : setup_graph sel = .ok g) :
    edgesFrom g startNode = [analystName (sel.headD "")] ∧
    succOf g "Risky Analyst" = ["Safe Analyst", "Risk Judge"] ∧
    succOf g "Safe Analyst" = ["Neutral Analyst", "Risk Judge"] ∧
    succOf g "Neutral Analyst" = ["Risky Analyst", "Risk Judge"] ∧
    (∀ t ∈ sel,
      branchesFrom g (analystName t) = [[toolsName t, msgClearName t]] ∧
      edgesFrom g (analystName t) = [] ∧
      edgesFrom g (toolsName t) = [analystName t] ∧
      branchesFrom g (toolsName t) = [] ∧
      branchesFrom g (msgClearName t) = []) ∧
    clearChainOk g sel = true ∧
    succOf g "Research Manager" = ["Trader"] ∧
    succOf g "Trader" = ["Risky Analyst"] ∧
    succOf g "Risk Judge" = [endNode] ∧
    g.nodes = expectedNodes sel ∧
    g.nodes.length = 8 + 3 * sel.length := by
  have hc := checkTopology_of_ok h
  rw [checkTopology, h] at hc
  simp only [Bool.and_eq_true, beq_iff_eq, List.all_eq_true] at hc
  obtain ⟨⟨⟨⟨⟨⟨⟨⟨⟨⟨h1, h2⟩, h3⟩, h4⟩, h5⟩, h6⟩, h7⟩, h8⟩, h9⟩, h10⟩, h11⟩ := hc
  refine ⟨h1, h2, h3, h4, ?_, h6, h7, h8, h9, h10, by exact_mod_cast h11⟩
  intro t ht
  have := h5 t ht
  simp only [Bool.and_eq_true, beq_iff_eq] at this
  obtain ⟨⟨⟨⟨p1, p2⟩, p3⟩, p4⟩, p5⟩ := this
  exact ⟨p1, p2, p3, p4, p5⟩

theorem clearChain_next :
    ∀ (sel : List String) (g : StateGraph), clearChainOk g sel = true →
      ∀ i : Nat, (h1 : i + 1 < sel.length) →
        edgesFrom g (msgClearName sel[i]) = [analystName sel[i + 1]] := by
  intro sel
  induction sel with
  | nil => intro g _ i h1; simp at h1
  | cons t rest ih =>
    intro g hc i h1
    cases rest with
    | nil => simp at h1
    | cons u rest2 =>
      rw [clearChainOk, Bool.and_eq_true, beq_iff_eq] at hc
      cases i with
      | zero => simpa using hc.1
      | succ j =>
        have hj : j + 1 < (u :: rest2).length := by
          simpa using h1
        simpa using ih g hc.2 j hj

theorem clearChain_last :
    ∀ (sel : List String) (g : StateGraph), clearChainOk g sel = true →
      (h2 : sel ≠ []) →
        edgesFrom g (msgClearName (sel.getLast h2)) = ["Bull Researcher"] := by
  intro sel
  induction sel with
  | nil => intro g _ h2; exact absurd rfl h2
  | cons t rest ih =>
    intro g hc h2
    cases rest with
    | nil =>
      rw [clearChainOk, beq_iff_eq] at hc
      simpa [List.getLast] using hc
    | cons u rest2 =>
      rw [clearChainOk, Bool.and_eq_true] at hc
      rw [List.getLast_cons (List.cons_ne_nil u rest2)]
      exact ih g hc.2 (List.cons_ne_nil u rest2)

theorem pyFold_nodup :
    ∀ (l acc : List String), acc.Nodup → (l.foldl insertKey acc).Nodup := by
  intro l
  induction l with
  | nil => intro acc h; exact h
  | cons a l ih =>
    intro acc h
    rw [List.foldl_cons]
    refine ih (insertKey acc a) ?_
    rw [insertKey]
    by_cases hmem : a ∈ acc
    · rw [if_pos hmem]; exact h
    · rw [if_neg hmem]
      simpa [List.nodup_append] using ⟨h, hmem⟩

theorem pyFold_mem :
    ∀ (l acc : List String) (x : String), x ∈ l.foldl insertKey acc →
      x ∈ acc ∨ x ∈ l := by
  intro l
  induction l with
  | nil => intro acc x h; exact Or.inl h
  | cons a l ih =>
    intro acc x h
    rw [List.foldl_cons] at h
    rcases ih (insertKey acc a) x h with hacc | hl
    · rw [insertKey] at hacc
      by_cases hmem : a ∈ acc
      · rw [if_pos hmem] at hacc; exact Or.inl hacc
      · rw [if_neg hmem] at hacc
        rcases List.mem_append.mp hacc with h1 | h1
        · exact Or.inl h1
        · simp at h1; subst h1; simp
    · simp [hl]

theorem pyDictKeys_nodup (l : List String) : (pyDictKeys l).Nodup :=
  pyFold_nodup l [] List.nodup_nil

theorem pyDictKeys_mem {l : List String} {x : String}
    (h : x ∈ pyDictKeys l) : x ∈ l := by
  rcases pyFold_mem l [] x h with h1 | h1
  · simp at h1
  · exact h1

/-- C1 counterexample: with the selection `["market", "bogus"]` the build
does not fail with the builder's configuration-validation error — node
creation silently skips the unrecognized identifier and succeeds, and the
eventual failure is the `AttributeError` from the dynamic predicate
lookup during edge wiring; with `["market", "market"]` the failure is the
graph library's duplicate-branch error, not a validation error. -/
theorem C1_counterexample :
    setup_graph ["market", "bogus"] =
      .error (.attributeError "should_continue_bogus") ∧
    setup_graph ["market", "bogus"] ≠ .error .noAnalystsSelected ∧
    (nodesPhase ["market", "bogus"]).isOk = true ∧
    setup_graph ["market", "market"] =
      .error (.branchAlreadyExists "Market Analyst" "should_continue_market") ∧
    setup_graph ["market", "market"] ≠ .error .noAnalystsSelected :=
  ⟨rfl,
    fun h => GraphError.noConfusion (Except.error.inj
      ((rfl : setup_graph ["market", "bogus"] =
        .error (.attributeError "should_continue_bogus")).symm.trans h)),
    rfl, rfl,
    fun h => GraphError.noConfusion (Except.error.inj
      ((rfl : setup_graph ["market", "market"] =
        .error (.branchAlreadyExists "Market Analyst"
          "should_continue_market")).symm.trans h))⟩

/-- C1 (amended): `setup_graph` itself validates only non-emptiness,
raising the no-analysts `ValueError` on an empty selection; every
selection it accepts is nevertheless non-empty, duplicate-free and made
of recognized identifiers, because an unrecognized identifier fails the
dynamic predicate lookup and a duplicate fails the duplicate-branch
registration — later and with different errors, not with the validation
error, and round/limit values are not consumed by the builder at all. -/
theorem C1_theorem :
    setup_graph [] = .error .noAnalystsSelected ∧
    ∀ (sel : List String) (g : StateGraph), setup_graph sel = .ok g →
      sel ≠ [] ∧ sel.Nodup ∧ ∀ t ∈ sel, t ∈ analystsMapKeys :=
  ⟨rfl, fun _ _ h => setup_graph_ok_valid h⟩

/-- C1 witness: the amended theorem applied to the accepted selection
`["market"]`. -/
theorem C1_witness :
    ["market"] ≠ ([] : List String) ∧ List.Nodup ["market"] ∧
      ∀ t ∈ ["market"], t ∈ analystsMapKeys :=
  C1_theorem.2 ["market"] gMarket rfl

/-- C2: every non-empty, duplicate-free selection of recognized stage
identifiers compiles, and the entry edge from START targets the analyst
node of the first selected identifier. -/
theorem C2_theorem :
    ∀ sel : List String, sel ≠ [] → sel.Nodup →
      (∀ x ∈ sel, x ∈ analystsMapKeys) →
      (setup_graph sel).isOk = true ∧
      ∀ g : StateGraph, setup_graph sel = .ok g →
        edgesFrom g startNode = [analystName (sel.headD "")] := by
  intro sel hne hnd hmem
  have hc := checkTopology_of_valid hne hnd hmem
  rw [checkTopology] at hc
  cases hok : setup_graph sel with
  | error e => rw [hok] at hc; simp at hc
  | ok g =>
    refine ⟨rfl, fun g2 hg2 => ?_⟩
    injection hg2 with h2
    subst h2
    exact (topology_facts hok).1

/-- C2 witness: the default four-stage selection compiles and its entry
edge targets the market analyst. -/
theorem C2_witness :
    (setup_graph ["market", "social", "news", "fundamentals"]).isOk = true ∧
    edgesFrom gDefault startNode = [analystName "market"] := by
  have h := C2_theorem ["market", "social", "news", "fundamentals"]
    (by decide) (by decide) (by decide)
  exact ⟨h.1, h.2 gDefault rfl⟩

/-- C3: with `max_debate_rounds = 0` the debate predicate routes every
state — in particular the state right after the bull node's first turn —
to the Research Manager, so the debate-phase walk from the bull node is
exactly bull followed by the decision manager and contains no bear
turn.  (Predicate and turn updates modelled from spec §4.2/§4.4;
`ConditionalLogic.py` and the researcher node code are not under src.) -/
theorem C3_theorem :
    ∀ (s : DebateState) (fuel : Nat),
      shouldContinueDebate 0 s = "Research Manager" ∧
      debateTrace 0 (fuel + 1) "Bull Researcher" s =
        ["Bull Researcher", "Research Manager"] ∧
      "Bear Researcher" ∉ debateTrace 0 (fuel + 1) "Bull Researcher" s := by
  intro s fuel
  have h1 : ∀ s2 : DebateState, shouldContinueDebate 0 s2 = "Research Manager" := by
    intro s2
    rw [shouldContinueDebate, if_pos (by omega : 2 * 0 ≤ s2.count)]
  have h2 : debateTrace 0 (fuel + 1) "Bull Researcher" s =
      "Bull Researcher" ::
        debateTrace 0 fuel (shouldContinueDebate 0 (bullTurn s)) (bullTurn s) := rfl
  have h3 : debateTrace 0 fuel "Research Manager" (bullTurn s) =
      ["Research Manager"] := by
    cases fuel with
    | zero => rfl
    | succ n => rfl
  rw [h1 (bullTurn s), h3] at h2
  exact ⟨h1 s, h2, by rw [h2]; decide⟩

/-- C4: in every compiled topology the risk-role nodes follow the fixed
cycle risky → safe → neutral → risky: the possible successors of the
Risky Analyst are exactly Safe Analyst and Risk Judge, of the Safe
Analyst exactly Neutral Analyst and Risk Judge, and of the Neutral
Analyst exactly Risky Analyst and Risk Judge. -/
theorem C4_theorem :
    ∀ (sel : List String) (g : StateGraph), setup_graph sel = .ok g →
      succOf g "Risky Analyst" = ["Safe Analyst", "Risk Judge"] ∧
      succOf g "Safe Analyst" = ["Neutral Analyst", "Risk Judge"] ∧
      succOf g "Neutral Analyst" = ["Risky Analyst", "Risk Judge"] :=
  fun _ _ h =>
    ⟨(topology_facts h).2.1, (topology_facts h).2.2.1, (topology_facts h).2.2.2.1⟩

/-- C4 witness: the risk-cycle successor sets in the compiled graph for
`["market"]`. -/
theorem C4_witness :
    succOf gMarket "Risky Analyst" = ["Safe Analyst", "Risk Judge"] ∧
    succOf gMarket "Safe Analyst" = ["Neutral Analyst", "Risk Judge"] ∧
    succOf gMarket "Neutral Analyst" = ["Risky Analyst", "Risk Judge"] :=
  C4_theorem ["market"] gMarket rfl

/-- C5: every selected stage's analyst node has exactly one conditional
edge, whose two targets are that stage's own tool node and its own
message-clearing node, chosen by the tool-continue predicate according
to whether the last message requests tool invocations; the tool node's
only outgoing edge is the unconditional edge back to its own analyst.
(Tool-continue predicate modelled from spec §4.2.) -/
theorem C5_theorem :
    ∀ (sel : List String) (g : StateGraph), setup_graph sel = .ok g →
      ∀ t ∈ sel,
        branchesFrom g (analystName t) = [[toolsName t, msgClearName t]] ∧
        edgesFrom g (analystName t) = [] ∧
        shouldContinueAnalyst true t = toolsName t ∧
        shouldContinueAnalyst false t = msgClearName t ∧
        edgesFrom g (toolsName t) = [analystName t] ∧
        branchesFrom g (toolsName t) = [] :=
  fun sel g h t ht =>
    have f := (topology_facts h).2.2.2.2.1 t ht
    ⟨f.1, f.2.1, rfl, rfl, f.2.2.1, f.2.2.2.1⟩

/-- C5 witness: the market stage's tool loop in the compiled graph for
`["market"]`. -/
theorem C5_witness :
    branchesFrom gMarket (analystName "market") =
      [[toolsName "market", msgClearName "market"]] ∧
    edgesFrom gMarket (analystName "market") = [] ∧
    shouldContinueAnalyst true "market" = toolsName "market" ∧
    shouldContinueAnalyst false "market" = msgClearName "market" ∧
    edgesFrom gMarket (toolsName "market") = [analystName "market"] ∧
    branchesFrom gMarket (toolsName "market") = [] :=
  C5_theorem ["market"] gMarket rfl "market" (by decide)

/-- C6: in every compiled topology the message-clearing node of the
stage at position `i` routes unconditionally to the analyst node of the
stage at position `i + 1`, and the last selected stage's clearing node
routes unconditionally to the Bull Researcher. -/
theorem C6_theorem :
    ∀ (sel : List String) (g : StateGraph), setup_graph sel = .ok g →
      (∀ i : Nat, (h1 : i + 1 < sel.length) →
        edgesFrom g (msgClearName sel[i]) = [analystName sel[i + 1]]) ∧
      ∀ h2 : sel ≠ [],
        edgesFrom g (msgClearName (sel.getLast h2)) = ["Bull Researcher"] :=
  fun sel g h =>
    have hcc := (topology_facts h).2.2.2.2.2.1
    ⟨clearChain_next sel g hcc, clearChain_last sel g hcc⟩

/-- C6 witness: the clear-node hand-offs in the compiled graph for
`["market", "news"]`. -/
theorem C6_witness :
    edgesFrom gMarketNews (msgClearName "market") = [analystName "news"] ∧
    edgesFrom gMarketNews
      (msgClearName (["market", "news"].getLast (by decide))) =
      ["Bull Researcher"] := by
  have h := C6_theorem ["market", "news"] gMarketNews rfl
  exact ⟨by simpa using h.1 0 (by decide), h.2 (by decide)⟩

/-- C7: in every compiled topology the Research Manager routes
unconditionally to the Trader, the Trader unconditionally to the Risky
Analyst, and the Risk Judge unconditionally to the terminal node. -/
theorem C7_theorem :
    ∀ (sel : List String) (g : StateGraph), setup_graph sel = .ok g →
      succOf g "Research Manager" = ["Trader"] ∧
      succOf g "Trader" = ["Risky Analyst"] ∧
      succOf g "Risk Judge" = [endNode] :=
  fun _ _ h =>
    ⟨(topology_facts h).2.2.2.2.2.2.1, (topology_facts h).2.2.2.2.2.2.2.1,
      (topology_facts h).2.2.2.2.2.2.2.2.1⟩

/-- C7 witness: the unconditional hand-offs in the compiled graph for
`["market"]`. -/
theorem C7_witness :
    succOf gMarket "Research Manager" = ["Trader"] ∧
    succOf gMarket "Trader" = ["Risky Analyst"] ∧
    succOf gMarket "Risk Judge" = [endNode] :=
  C7_theorem ["market"] gMarket rfl

/-- C9: whenever the `langchain_groq` import succeeds, `get_groq_llm`
returns the GROQ_API_KEY `ValueError` for every model name, `api_key`
argument and environment value — the resolved key is the hardcoded empty
string — and never returns a constructed client. -/
theorem C9_theorem :
    ∀ (model : String) (apiKey envKey : Option String),
      get_groq_llm true model apiKey envKey = .error .valueError ∧
      ∀ c : GroqClient, get_groq_llm true model apiKey envKey ≠ .ok c := by
  intro model apiKey envKey
  refine ⟨rfl, fun c h => ?_⟩
  rw [show get_groq_llm true model apiKey envKey = .error .valueError from rfl] at h
  exact Except.noConfusion h

/-- C10: every topology accepted by `setup_graph` contains exactly the
stage triple (analyst, message-clear, tools) for each selected
identifier plus the eight fixed nodes — 3·|selection| + 8 nodes — and
the node-creation step never raises on any selection: identifiers absent
from the agent registry are silently skipped and contribute no nodes. -/
theorem C10_theorem :
    (∀ (sel : List String) (g : StateGraph), setup_graph sel = .ok g →
      g.nodes = sel.flatMap stageTriple ++ fixedNodes ∧
      g.nodes.length = 8 + 3 * sel.length) ∧
    ∀ selected : List String,
      (nodesPhase selected).isOk = true ∧
      ∀ g0 : StateGraph, nodesPhase selected = .ok g0 →
        g0.nodes =
          (pyDictKeys (selected.filter recognizedAnalyst)).flatMap stageTriple
            ++ fixedNodes := by
  constructor
  · intro sel g h
    have hf := topology_facts h
    exact ⟨hf.2.2.2.2.2.2.2.2.2.1, hf.2.2.2.2.2.2.2.2.2.2⟩
  · intro selected
    have hnd : (pyDictKeys (selected.filter recognizedAnalyst)).Nodup :=
      pyDictKeys_nodup _
    have hsub : ∀ x ∈ pyDictKeys (selected.filter recognizedAnalyst),
        x ∈ analystsMapKeys := by
      intro x hx
      have hx2 := pyDictKeys_mem hx
      have hx3 := List.of_mem_filter hx2
      simpa [recognizedAnalyst] using hx3
    have hck := masterNodesCheck _
      (mem_stageListsUpTo 4 _ hsub (valid_sel_length_le hnd hsub)) hnd
    rw [checkNodesPhase] at hck
    have hnp : nodesPhase selected =
        addAnalystNodes (pyDictKeys (selected.filter recognizedAnalyst))
          StateGraph.empty >>= addFixedNodes := rfl
    cases hmatch : addAnalystNodes (pyDictKeys (selected.filter recognizedAnalyst))
        StateGraph.empty >>= addFixedNodes with
    | error e => rw [hmatch] at hck; simp at hck
    | ok g0 =>
      rw [hmatch] at hck
      rw [hnp, hmatch]
      refine ⟨rfl, fun g1 hg1 => ?_⟩
      injection hg1 with hg1
      subst hg1
      exact beq_iff_eq.mp hck

/-- C10 witness: the node inventory for the accepted selection
`["market"]`, and the silently succeeding node phase for the selection
`["market", "bogus"]` whose unrecognized identifier contributes no
nodes. -/
theorem C10_witness :
    gMarket.nodes = ["market"].flatMap stageTriple ++ fixedNodes ∧
    (nodesPhase ["market", "bogus"]).isOk = true ∧
    gNodesMB.nodes =
      (pyDictKeys (["market", "bogus"].filter recognizedAnalyst)).flatMap
        stageTriple ++ fixedNodes :=
  ⟨(C10_theorem.1 ["market"] gMarket rfl).1,
    (C10_theorem.2 ["market", "bogus"]).1,
    (C10_theorem.2 ["market", "bogus"]).2 gNodesMB rfl⟩

theorem get_memories_length (coll : List ChromaEntry) (n : Nat) :
    (get_memories coll n).length ≤ n := by
  rw [get_memories, List.length_map, chromaQuery]
  exact List.length_take_le n _

theorem get_memories_mem {coll : List ChromaEntry} {n : Nat} {r : MemRecord}
    (h : r ∈ get_memories coll n) :
    ∃ e ∈ coll, r.matched_situation = e.doc ∧
      r.recommendation = e.recommendation ∧
      r.similarity_score = 1 - e.dist := by
  rw [get_memories] at h
  obtain ⟨e, he, rfl⟩ := List.mem_map.mp h
  rw [chromaQuery] at he
  have h2 := List.mem_of_mem_take he
  exact ⟨e, (List.perm_insertionSort distLE coll).subset h2, rfl, rfl, rfl⟩

theorem get_memories_sorted (coll : List ChromaEntry) (n : Nat) :
    (get_memories coll n).Sorted
      (fun r1 r2 => r2.similarity_score ≤ r1.similarity_score) := by
  rw [get_memories, List.Sorted, List.pairwise_map]
  have hs : (List.insertionSort distLE coll).Pairwise distLE :=
    List.sorted_insertionSort distLE coll
  have ht : (chromaQuery coll n).Pairwise distLE := by
    rw [chromaQuery]
    exact List.Pairwise.sublist (List.take_sublist n _) hs
  exact ht.imp (fun h => sub_le_sub_left h 1)

theorem semantic_rows_length (rows : List NeonRow) (memType ticker : Option String)
    (limit : Nat) :
    (semantic_search_memories rows memType ticker limit).length ≤ limit := by
  simp only [semantic_search_memories, List.length_map]
  exact List.length_take_le limit _

theorem semantic_rows_shape {rows : List NeonRow} {memType ticker : Option String}
    {limit : Nat} {r : NeonResult}
    (h : r ∈ semantic_search_memories rows memType ticker limit) :
    ∃ row ∈ rows, r = ⟨row.id, row.memory_type, row.ticker, row.content,
      row.metadata, 1 - row.dist⟩ := by
  simp only [semantic_search_memories] at h
  obtain ⟨row, hrow, rfl⟩ := List.mem_map.mp h
  have h2 := List.mem_of_mem_take hrow
  have h3 := (List.perm_insertionSort neonDistLE _).subset h2
  exact ⟨row, List.mem_of_mem_filter h3, rfl⟩

/-- C8 counterexample: a memory instance whose Neon vector store is
connected returns, for a query with limit 3, one record of the Neon row
shape `{id, memory_type, ticker, content, metadata, similarity}` — not a
record carrying matched situation and recommendation fields, as the
claim requires of every returned record. -/
theorem C8_counterexample :
    (get_relevant_memories memVec none 3).length = 1 ∧
    (get_relevant_memories memVec none 3).all chromaShaped = false :=
  ⟨rfl, rfl⟩

/-- C8 (amended): the ChromaDB search `get_memories` returns at most
`limit` records, each pairing a stored situation with its recommendation
and `similarity_score = 1 - distance`, ordered by descending similarity;
`get_relevant_memories` returns those records only when the vector store
is not in use — with the vector store connected it returns at most
`limit` of the Neon rows, whose shape is `{id, memory_type, ticker,
content, metadata, similarity = 1 - distance}` without matched-situation
or recommendation fields. -/
theorem C8_theorem :
    (∀ (coll : List ChromaEntry) (n : Nat),
      (get_memories coll n).length ≤ n ∧
      (∀ r ∈ get_memories coll n, ∃ e ∈ coll,
        r.matched_situation = e.doc ∧ r.recommendation = e.recommendation ∧
        r.similarity_score = 1 - e.dist) ∧
      (get_memories coll n).Sorted
        (fun r1 r2 => r2.similarity_score ≤ r1.similarity_score)) ∧
    (∀ (m : MemoryState) (ticker : Option String) (limit : Nat),
      m.use_vector_db = false →
      get_relevant_memories m ticker limit =
        (get_memories m.collection limit).map .chroma) ∧
    ∀ (m : MemoryState) (ticker : Option String) (limit : Nat),
      (get_relevant_memories m ticker limit).length ≤ limit ∧
      ∀ r ∈ get_relevant_memories m ticker limit,
        (∃ rec2 : MemRecord, r = .chroma rec2) ∨
        ∃ row ∈ m.vector_db.getD [],
          r = .neon ⟨row.id, row.memory_type, row.ticker, row.content,
            row.metadata, 1 - row.dist⟩ := by
  refine ⟨fun coll n => ⟨get_memories_length coll n,
    fun r hr => get_memories_mem hr, get_memories_sorted coll n⟩,
    fun m tk lim h => ?_, fun m tk lim => ?_⟩
  · rw [get_relevant_memories, h]
    simp
  · by_cases hv : (m.use_vector_db && m.vector_db.isSome) = true
    · rw [get_relevant_memories, if_pos hv, semantic_search_async, if_pos hv]
      constructor
      · rw [List.length_map]
        exact semantic_rows_length _ _ _ _
      · intro r hr
        obtain ⟨nr, hnr, rfl⟩ := List.mem_map.mp hr
        obtain ⟨row, hrow, rfl⟩ := semantic_rows_shape hnr
        exact Or.inr ⟨row, hrow, rfl⟩
    · rw [get_relevant_memories, if_neg hv]
      constructor
      · rw [List.length_map]
        exact get_memories_length _ _
      · intro r hr
        obtain ⟨cr, _, rfl⟩ := List.mem_map.mp hr
        exact Or.inl ⟨cr, rfl⟩

/-- C8 witness: the amended theorem applied to the concrete ChromaDB-only
instance and the concrete vector-store instance. -/
theorem C8_witness :
    (get_memories memChroma.collection 2).length ≤ 2 ∧
    get_relevant_memories memChroma none 2 =
      (get_memories memChroma.collection 2).map .chroma ∧
    (get_relevant_memories memVec none 3).length ≤ 3 :=
  ⟨(C8_theorem.1 memChroma.collection 2).1,
    C8_theorem.2.1 memChroma none 2 rfl,
    (C8_theorem.2.2 memVec none 3).1⟩
